import Mathlib

/-! Verification of atomix-go-client: the set and value primitives.


A shallow embedding of `pkg/atomix/set/set.go`, `pkg/atomix/set/options.go` and
`pkg/atomix/value/value.go`.

* A unary RPC `s.client.X(ctx, request)` returns `(response, err)`; its outcome is an
  `Except E R`, with `E` the type of transport errors (`err != nil`) and `R` the response.
* `stream.Recv()` returns a message, `io.EOF` or another transport error; a server stream
  is the list of the results of its successive `Recv` calls.
* A goroutine's visible behaviour is the list of the effects it performs, in program
  order: closing a channel, sending on a channel, calling a hook, logging.
-/

namespace AtomixSet

/-! ## Package `errors` -/

/-- Modelled from the spec: the closed taxonomy of translated errors of §7 (package
`errors` of atomix-sdk-go is imported by set.go and is not part of this repository);
`Other` stands for every kind that is not otherwise classified. -/
inductive ErrorType
  | AlreadyExists
  | NotFound
  | Canceled
  | Timeout
  | Other
  deriving DecidableEq, Repr

/-- Modelled from the spec: a translated error, an error kind with a message. -/
structure TypedError where
  Kind : ErrorType
  Message : String
  deriving DecidableEq, Repr

/-- Modelled from the spec: `errors.IsAlreadyExists`, equality test on the kind. -/
def IsAlreadyExists (err : TypedError) : Bool := err.Kind == ErrorType.AlreadyExists

/-- Modelled from the spec: `errors.IsNotFound`, equality test on the kind. -/
def IsNotFound (err : TypedError) : Bool := err.Kind == ErrorType.NotFound

/-- Modelled from the spec: `errors.IsCanceled`, equality test on the kind. -/
def IsCanceled (err : TypedError) : Bool := err.Kind == ErrorType.Canceled

/-- Modelled from the spec: `errors.IsTimeout`, equality test on the kind. -/
def IsTimeout (err : TypedError) : Bool := err.Kind == ErrorType.Timeout

/-! ## Wire types of the set API

The generated stubs of atomix-api are imported by set.go and are not part of this
repository; the types below have the fields that set.go and options.go read and write. -/

namespace api

/-- The element of a request or of an event: `api.Element`. -/
structure Element where
  Value : String
  deriving DecidableEq, Repr

/-- `api.AddRequest`. -/
structure AddRequest where
  Element : Element
  deriving DecidableEq, Repr

/-- `api.RemoveRequest`. -/
structure RemoveRequest where
  Element : Element
  deriving DecidableEq, Repr

/-- `api.ElementsRequest`, built empty by `set.Elements`. -/
structure ElementsRequest where
  deriving DecidableEq, Repr

/-- `api.ElementsResponse`. -/
structure ElementsResponse where
  Element : Element
  deriving DecidableEq, Repr

/-- `api.EventsRequest`: the `Replay` flag, and in `rest` every other field of the
generated struct, whatever it is. -/
structure EventsRequest (H : Type) where
  Replay : Bool
  rest : H
  deriving DecidableEq, Repr

/-- The wire event-type tag `api.Event_Type`: the three tags named by the switch of
`set.Watch`, and `other tag` for every tag that is none of them. -/
inductive Event_Type
  | Event_ADD
  | Event_REMOVE
  | Event_REPLAY
  | other (tag : Int)
  deriving DecidableEq, Repr

/-- `api.Event`. -/
structure Event where
  Type_ : Event_Type
  Element : Element
  deriving DecidableEq, Repr

/-- `api.EventsResponse`. -/
structure EventsResponse where
  Event : Event
  deriving DecidableEq, Repr

end api

/-- The result of one `stream.Recv()`: a message, `io.EOF`, or another error. -/
inductive RecvResult (E M : Type)
  | msg (response : M)
  | EOF
  | error (err : E)
  deriving DecidableEq, Repr

/-! ## Events and watch options (set.go, lines 69-90; options.go, lines 49-68) -/

/-- `EventType` is a string type. -/
abbrev EventType := String

/-- `EventAdd` indicates a value was added to the set. -/
def EventAdd : EventType := "add"

/-- `EventRemove` indicates a value was removed from the set. -/
def EventRemove : EventType := "remove"

/-- `EventReplay` indicates a value was replayed. -/
def EventReplay : EventType := "replay"

/-- `Event` is a set change event. -/
structure Event where
  Type_ : EventType
  Value : String
  deriving DecidableEq, Repr

/-- `WatchOption` is an interface whose two methods are unexported, so its
implementations are those of package set: `replayOption` alone. -/
inductive WatchOption
  | replayOption
  deriving DecidableEq, Repr

/-- `WithReplay` returns a Watch option to replay entries. -/
def WithReplay : WatchOption := WatchOption.replayOption

/-- `beforeWatch(request *api.EventsRequest)`: the request after the call. -/
def WatchOption.beforeWatch {H : Type} :
    WatchOption → api.EventsRequest H → api.EventsRequest H
  | WatchOption.replayOption, request => { request with Replay := true }

/-- `afterWatch(response *api.EventsResponse)`: the response after the call. -/
def WatchOption.afterWatch : WatchOption → api.EventsResponse → api.EventsResponse
  | WatchOption.replayOption, response => response

/-! ## Add and Remove -/

section Unary

variable {E R : Type}

/-- `set.Add` (set.go, lines 121-136). `client` is `s.client.Add`; `From` is
`errors.From`. The result is the pair `(bool, error)`, with `none` for a nil error. -/
def Add (From : E → TypedError) (client : api.AddRequest → Except E R) (value : String) :
    Bool × Option TypedError :=
  let request : api.AddRequest := { Element := { Value := value } }
  match client request with
  | Except.error err =>
    let err := From err
    if IsAlreadyExists err then
      (false, none)
    else
      (false, some err)
  | Except.ok _ => (true, none)

/-- `set.Remove` (set.go, lines 138-153). `client` is `s.client.Remove`. -/
def Remove (From : E → TypedError) (client : api.RemoveRequest → Except E R)
    (value : String) : Bool × Option TypedError :=
  let request : api.RemoveRequest := { Element := { Value := value } }
  match client request with
  | Except.error err =>
    let err := From err
    if IsNotFound err then
      (false, none)
    else
      (false, some err)
  | Except.ok _ => (true, none)

end Unary

/-! ## Elements (set.go, lines 186-213) -/

/-- What the goroutine of `set.Elements` does, one effect at a time. -/
inductive ElementsEffect
  /-- `ch <- response.Element.Value` -/
  | send (value : String)
  /-- `log.Errorf("Elements failed: %v", err)` -/
  | logErrorf (err : TypedError)
  /-- the deferred `close(ch)` -/
  | closeCh
  deriving DecidableEq, Repr

/-- What the call of `set.Elements` does, one effect at a time. -/
inductive ElementsCall
  /-- `s.client.Elements(s.GetContext(ctx), request)` -/
  | Elements (request : api.ElementsRequest)
  /-- `go func() ...`, with the effects of the goroutine -/
  | go (loop : List ElementsEffect)
  /-- `return errors.From(err)` -/
  | returnErr (err : TypedError)
  /-- `return nil` -/
  | returnNil
  deriving DecidableEq, Repr

section Streams

variable {E : Type}

/-- The goroutine of `set.Elements` (lines 193-211) over the results of the successive
`stream.Recv()` calls. When the results run out without `io.EOF` or an error the next
`Recv` never returns: the goroutine does nothing more, and its deferred close never runs. -/
def elementsLoop (From : E → TypedError) :
    List (RecvResult E api.ElementsResponse) → List ElementsEffect
  | [] => []
  | RecvResult.EOF :: _ => [ElementsEffect.closeCh]
  | RecvResult.error err :: _ =>
    let err := From err
    if IsCanceled err || IsTimeout err then
      [ElementsEffect.closeCh]
    else
      [ElementsEffect.logErrorf err, ElementsEffect.closeCh]
  | RecvResult.msg response :: stream =>
    ElementsEffect.send response.Element.Value :: elementsLoop From stream

/-- `set.Elements` (lines 186-213). `client` is `s.client.Elements`, which returns the
stream or an error. -/
def Elements (From : E → TypedError)
    (client : api.ElementsRequest → Except E (List (RecvResult E api.ElementsResponse))) :
    List ElementsCall :=
  let request : api.ElementsRequest := {}
  match client request with
  | Except.error err => [ElementsCall.Elements request, ElementsCall.returnErr (From err)]
  | Except.ok stream =>
    [ElementsCall.Elements request, ElementsCall.go (elementsLoop From stream),
      ElementsCall.returnNil]

/-! ## Watch (set.go, lines 215-283) -/

/-- What the goroutine of `set.Watch` (the pump) does, one effect at a time. -/
inductive Effect
  /-- `close(openCh)` -/
  | closeOpenCh
  /-- `opts[i].afterWatch(response)`, with the response the hook is called on -/
  | afterWatch (o : WatchOption) (response : api.EventsResponse)
  /-- `ch <- event` -/
  | send (event : Event)
  /-- `log.Errorf("Watch failed: %v", err)` -/
  | logErrorf (err : TypedError)
  /-- the deferred `close(ch)` -/
  | closeCh
  deriving DecidableEq, Repr

/-- What the call of `set.Watch` does, one effect at a time. -/
inductive WatchCall (H : Type)
  /-- `opts[i].beforeWatch(request)`, with the request the hook is called on -/
  | beforeWatch (o : WatchOption) (request : api.EventsRequest H)
  /-- `s.client.Events(s.GetContext(ctx), request)` -/
  | Events (request : api.EventsRequest H)
  /-- `return errors.From(err)` -/
  | returnErr (err : TypedError)
  /-- `openCh := make(chan struct{})` -/
  | makeOpenCh
  /-- `go func() ...`, with the effects of the goroutine -/
  | go (pump : List Effect)
  /-- the final `select` on `openCh` and `ctx.Done()`, which returns nil or `ctx.Err()` -/
  | selectOpenChOrDone
  deriving DecidableEq, Repr

/-- The loop of lines 217-219: the hook calls in order, and the request after them. -/
def runBeforeWatch {H : Type} :
    List WatchOption → api.EventsRequest H → List (WatchCall H) × api.EventsRequest H
  | [], request => ([], request)
  | o :: opts, request =>
    let (calls, final) := runBeforeWatch opts (o.beforeWatch request)
    (WatchCall.beforeWatch o request :: calls, final)

/-- The loop of lines 253-255: the hook calls in order, and the response after them. -/
def runAfterWatch :
    List WatchOption → api.EventsResponse → List Effect × api.EventsResponse
  | [], response => ([], response)
  | o :: opts, response =>
    let (calls, final) := runAfterWatch opts (o.afterWatch response)
    (Effect.afterWatch o response :: calls, final)

/-- The two deferred functions of the pump, in the order they run: the one registered
last (lines 230-234) first, then `close(ch)` (line 228). -/
def deferred (opened : Bool) : List Effect :=
  (if !opened then [Effect.closeOpenCh] else []) ++ [Effect.closeCh]

/-- The switch of lines 257-273. -/
def switchEvent (response : api.EventsResponse) : List Effect :=
  match response.Event.Type_ with
  | api.Event_Type.Event_ADD =>
    [Effect.send { Type_ := EventAdd, Value := response.Event.Element.Value }]
  | api.Event_Type.Event_REMOVE =>
    [Effect.send { Type_ := EventRemove, Value := response.Event.Element.Value }]
  | api.Event_Type.Event_REPLAY =>
    [Effect.send { Type_ := EventReplay, Value := response.Event.Element.Value }]
  | api.Event_Type.other _ => []

/-- The goroutine of `set.Watch` (lines 227-275) over the results of the successive
`stream.Recv()` calls; `opened` is the local variable `open`. When the results run out
without `io.EOF` or an error the next `Recv` never returns: the goroutine does nothing
more, and its deferred functions never run. -/
def pump (From : E → TypedError) (opts : List WatchOption) :
    Bool → List (RecvResult E api.EventsResponse) → List Effect
  | _, [] => []
  | opened, RecvResult.EOF :: _ => deferred opened
  | opened, RecvResult.error err :: _ =>
    let err := From err
    if IsCanceled err || IsTimeout err then
      deferred opened
    else
      Effect.logErrorf err :: deferred opened
  | opened, RecvResult.msg response :: stream =>
    (if !opened then [Effect.closeOpenCh] else [])
      ++ (runAfterWatch opts response).1
      ++ switchEvent (runAfterWatch opts response).2
      ++ pump From opts true stream

/-- `set.Watch` (lines 215-283). `client` is `s.client.Events`, which returns the stream
or an error. -/
def Watch {H : Type} [Inhabited H] (From : E → TypedError)
    (client : api.EventsRequest H → Except E (List (RecvResult E api.EventsResponse)))
    (opts : List WatchOption) : List (WatchCall H) :=
  let hooks := runBeforeWatch opts { Replay := false, rest := default }
  let request := hooks.2
  match client request with
  | Except.error err => hooks.1 ++ [WatchCall.Events request, WatchCall.returnErr (From err)]
  | Except.ok stream =>
    hooks.1 ++ [WatchCall.Events request, WatchCall.makeOpenCh,
      WatchCall.go (pump From opts false stream), WatchCall.selectOpenChOrDone]

end Streams

/-! ## Reading a trace -/

/-- The events sent on the delivery channel, in order. -/
def delivered : List Effect → List Event
  | [] => []
  | Effect.send event :: t => event :: delivered t
  | _ :: t => delivered t

/-- The values sent on the caller channel of `Elements`, in order. -/
def forwarded : List ElementsEffect → List String
  | [] => []
  | ElementsEffect.send value :: t => value :: forwarded t
  | _ :: t => forwarded t

/-- The effects of the goroutines that a call of `Watch` starts. -/
def pumpOf {H : Type} : List (WatchCall H) → List Effect
  | [] => []
  | WatchCall.go pump :: t => pump ++ pumpOf t
  | _ :: t => pumpOf t

/-! ## The select of Watch (set.go, lines 277-282)

The caller and the pump run side by side. The select completes at some moment of the
run of the pump: after the first `k` effects of the pump. -/

/-- The value of `ctx.Err()` once `ctx.Done()` is closed: `context.Canceled` or
`context.DeadlineExceeded`. -/
inductive CtxErr
  | Canceled
  | DeadlineExceeded
  deriving DecidableEq, Repr

/-- The select of lines 277-282, evaluated when `openCh` is closed or not
(`openChClosed`) and `ctx.Err()` is `ctxErr` (`none` while `ctx.Done()` is open). The
result is the error returned, `none` for nil. With one case ready the select takes it;
with both ready it takes either, and `pickOpenCh` is the choice; with neither ready the
call stays blocked, and there is no result. -/
def selectReturn (openChClosed : Bool) (ctxErr : Option CtxErr) (pickOpenCh : Bool) :
    Option (Option CtxErr) :=
  match openChClosed, ctxErr with
  | true, none => some none
  | false, some err => some (some err)
  | true, some err => if pickOpenCh then some none else some (some err)
  | false, none => none

/-- What `Watch` returns after it has opened the stream, when its select is evaluated
after the first `k` effects of the pump: `openCh` is closed when one of these effects
is its close. -/
def WatchReturn (pump : List Effect) (k : Nat) (ctxErr : Option CtxErr)
    (pickOpenCh : Bool) : Option (Option CtxErr) :=
  selectReturn ((pump.take k).contains Effect.closeOpenCh) ctxErr pickOpenCh

/-! ## The words of the specification -/

/-- A stream of `n` messages followed by a terminating receive: `io.EOF` for `none`,
the error `err` for `some err`. -/
def streamOf {E M : Type} (msgs : List M) (last : Option E) : List (RecvResult E M) :=
  msgs.map RecvResult.msg ++
    [match last with
     | none => RecvResult.EOF
     | some err => RecvResult.error err]

/-- What the pump logs on a terminating receive: nothing on a clean end (`none`) and on
an error classified as canceled or timeout, the translated error otherwise. -/
def exitLog {E : Type} (From : E → TypedError) : Option E → List Effect
  | none => []
  | some err =>
    if IsCanceled (From err) || IsTimeout (From err) then []
    else [Effect.logErrorf (From err)]

/-- The known set of wire event-type tags: ADD, REMOVE, REPLAY. -/
def knownTag : api.Event_Type → Bool
  | api.Event_Type.Event_ADD => true
  | api.Event_Type.Event_REMOVE => true
  | api.Event_Type.Event_REPLAY => true
  | api.Event_Type.other _ => false

/-- The mapping of a message to the domain event: ADD to add, REMOVE to remove, REPLAY to
replay, carrying the element value of the message; no event for a tag outside the known
set. -/
def eventOf (response : api.EventsResponse) : Option Event :=
  if response.Event.Type_ = api.Event_Type.Event_ADD then
    some { Type_ := "add", Value := response.Event.Element.Value }
  else if response.Event.Type_ = api.Event_Type.Event_REMOVE then
    some { Type_ := "remove", Value := response.Event.Element.Value }
  else if response.Event.Type_ = api.Event_Type.Event_REPLAY then
    some { Type_ := "replay", Value := response.Event.Element.Value }
  else
    none

end AtomixSet

namespace AtomixValue

open AtomixSet (TypedError)

/-! ## Wire types of the value API

The generated stubs of atomix-api and package `meta` are imported by value.go and are
not part of this repository. -/

namespace api

/-- Modelled from the spec: the revision of an object as the wire carries it; its number
is the `Revision.Num` that options_test.go reads (a uint64). -/
structure Revision where
  Num : Nat
  deriving DecidableEq, Repr

/-- Modelled from the spec: the metadata of an object as the wire carries it, with the
`Revision` that options_test.go reads. -/
structure ObjectMeta where
  Revision : Revision
  deriving DecidableEq, Repr

/-- Modelled from the spec: a precondition of a set request; the metadata precondition
is the one that options_test.go reads through `GetMetadata()`. -/
inductive Precondition
  | Metadata (metadata : ObjectMeta)
  deriving DecidableEq, Repr

/-- Modelled from the spec: the getter `GetMetadata()` of a precondition. -/
def Precondition.GetMetadata : Precondition → ObjectMeta
  | Precondition.Metadata metadata => metadata

/-- `api.Object`: the value bytes and the object metadata. -/
structure Object where
  ObjectMeta : ObjectMeta
  Value : List UInt8
  deriving DecidableEq, Repr

/-- `api.SetRequest`. -/
structure SetRequest where
  Value : Object
  Preconditions : List Precondition
  deriving DecidableEq, Repr

/-- `api.SetResponse`. -/
structure SetResponse where
  Value : Object
  deriving DecidableEq, Repr

end api

/-- Modelled from the spec: `meta.ObjectMeta`, with the `Revision` (a uint64) that
options_test.go sets. -/
structure ObjectMeta where
  Revision : Nat
  deriving DecidableEq, Repr

/-- `SetOption`, the interface of the options of `Set`: its two methods, each as the
value after the call of the struct it is given a pointer to. The interface is declared
in options.go of package value, which is not among the sources. -/
structure SetOption where
  beforeSet : api.SetRequest → api.SetRequest
  afterSet : api.SetResponse → api.SetResponse

/-- Modelled from the spec: `IfMatch` of options.go of package value, which is not among
the sources; from options_test.go, its `beforeSet` gives the request a metadata
precondition that carries the revision of the given object. A precondition is appended
after those the request already has; the hook `afterSet` does nothing. -/
def IfMatch (object : ObjectMeta) : SetOption where
  beforeSet := fun request =>
    { request with
      Preconditions := request.Preconditions ++
        [api.Precondition.Metadata { Revision := { Num := object.Revision } }] }
  afterSet := fun response => response

/-- The call of `value.Set`: the request passed to `v.client.Set`, and the pair
`(meta.ObjectMeta, error)` returned. -/
structure SetCall where
  request : api.SetRequest
  result : ObjectMeta × Option TypedError

/-- `value.Set` (value.go, lines 103-120). `client` is `v.client.Set`, `From` is
`errors.From` and `FromProto` is `meta.FromProto`. -/
def Set {E : Type} (From : E → TypedError) (FromProto : api.ObjectMeta → ObjectMeta)
    (client : api.SetRequest → Except E api.SetResponse)
    (value : List UInt8) (opts : List SetOption) : SetCall :=
  let request : api.SetRequest :=
    opts.foldl (fun request o => o.beforeSet request)
      { Value := { ObjectMeta := { Revision := { Num := 0 } }, Value := value },
        Preconditions := [] }
  match client request with
  | Except.error err => { request := request, result := ({ Revision := 0 }, some (From err)) }
  | Except.ok response =>
    let response := opts.foldl (fun response o => o.afterSet response) response
    { request := request, result := (FromProto response.Value.ObjectMeta, none) }

end AtomixValue

namespace Atomix

/-! ## Package `atomix` (atomix.go) -/

/-- `primitive.Type` is a string type (package primitive is imported by atomix.go and
set.go and is not among the sources); its `String()` is the string itself. -/
abbrev PrimitiveType := String

/-- `primitive.Type.String()`. -/
def PrimitiveType.String (t : PrimitiveType) : String := t

/-- `set.Type` (set.go, lines 29-30): `const Type primitive.Type = "Set"`, the type tag
that `set.New` passes to `primitive.NewClient` (line 109). -/
def set_Type : PrimitiveType := "Set"

/-- `primitiveapi.PrimitiveId`, with the two fields that `newPrimitiveID` fills. -/
structure PrimitiveId where
  Type_ : String
  Name : String
  deriving DecidableEq, Repr

/-- `newPrimitiveID` (atomix.go, lines 111-116). -/
def newPrimitiveID (t : PrimitiveType) (name : String) : PrimitiveId :=
  { Type_ := t.String, Name := name }

/-- `getPrimitiveOpts` (atomix.go, lines 118-120): the session option of the client,
then the options of the caller. `WithSessionID` is `primitive.WithSessionID`. -/
def getPrimitiveOpts {C O : Type} (WithSessionID : C → O) (clientID : C)
    (primitiveOpts : List O) : List O :=
  [WithSessionID clientID] ++ primitiveOpts

/-- The call of `GetSet`: the primitive ID passed to `client.connect`, and the pair
`(set.Set, error)` returned, as an `Except`. -/
structure GetSetCall (X S : Type) where
  id : PrimitiveId
  result : Except X S

/-- `GetSet` (atomix.go, lines 91-99). `counterType` is the constant `counter.Type`
that the body names (package counter is not among the sources), `connect` is
`client.connect`, `New` is `set.New` and `clientID` is `client.options.clientID`. -/
def GetSet {X S K C O : Type} (counterType : PrimitiveType)
    (connect : PrimitiveId → Except X K) (New : String → K → List O → Except X S)
    (WithSessionID : C → O) (clientID : C) (name : String) (opts : List O) :
    GetSetCall X S :=
  let id := newPrimitiveID counterType name
  match connect id with
  | Except.error err => { id := id, result := Except.error err }
  | Except.ok conn =>
    { id := id, result := New name conn (getPrimitiveOpts WithSessionID clientID opts) }

end Atomix

/-! # Theorems -/

namespace AtomixSet

section Lemmas

variable {E : Type}

theorem runAfterWatch_snd (opts : List WatchOption) (response : api.EventsResponse) :
    (runAfterWatch opts response).2 = response := by
  induction opts generalizing response with
  | nil => rfl
  | cons o opts ih =>
    cases o
    simp only [runAfterWatch, WatchOption.afterWatch]
    exact ih response

theorem runAfterWatch_fst (opts : List WatchOption) (response : api.EventsResponse) :
    (runAfterWatch opts response).1 = opts.map (fun o => Effect.afterWatch o response) := by
  induction opts generalizing response with
  | nil => rfl
  | cons o opts ih =>
    cases o
    simp only [runAfterWatch, WatchOption.afterWatch, List.map_cons]
    rw [ih response]

theorem pump_msg (From : E → TypedError) (opts : List WatchOption) (opened : Bool)
    (response : api.EventsResponse) (stream : List (RecvResult E api.EventsResponse)) :
    pump From opts opened (RecvResult.msg response :: stream)
      = (if !opened then [Effect.closeOpenCh] else [])
        ++ opts.map (fun o => Effect.afterWatch o response)
        ++ switchEvent response
        ++ pump From opts true stream := by
  simp only [pump, runAfterWatch_snd, runAfterWatch_fst]

theorem delivered_append (a b : List Effect) :
    delivered (a ++ b) = delivered a ++ delivered b := by
  induction a with
  | nil => rfl
  | cons x a ih => cases x <;> simp [delivered, ih]

theorem delivered_hooks (opts : List WatchOption) (response : api.EventsResponse) :
    delivered (opts.map (fun o => Effect.afterWatch o response)) = [] := by
  induction opts with
  | nil => rfl
  | cons o opts ih => simpa [delivered] using ih

theorem delivered_deferred (opened : Bool) : delivered (deferred opened) = [] := by
  cases opened <;> rfl

theorem delivered_gate (opened : Bool) :
    delivered (if !opened then [Effect.closeOpenCh] else []) = [] := by
  cases opened <;> rfl

theorem delivered_switchEvent (response : api.EventsResponse) :
    (delivered (switchEvent response)).map some = (eventOf response).toList.map some := by
  obtain ⟨⟨tag, element⟩⟩ := response
  cases tag <;> simp [switchEvent, eventOf, delivered, EventAdd, EventRemove, EventReplay]

theorem delivered_pump_opened (From : E → TypedError) (opts : List WatchOption)
    (o₁ o₂ : Bool) (stream : List (RecvResult E api.EventsResponse)) :
    delivered (pump From opts o₁ stream) = delivered (pump From opts o₂ stream) := by
  cases stream with
  | nil => rfl
  | cons r stream =>
    cases r with
    | msg response =>
      simp only [pump_msg, delivered_append, delivered_gate]
    | EOF => simp only [pump, delivered_deferred]
    | error err =>
      simp only [pump]
      split <;> simp [delivered, delivered_deferred]

theorem runBeforeWatch_snd {H : Type} (opts : List WatchOption)
    (request : api.EventsRequest H) :
    (runBeforeWatch opts request).2
      = opts.foldl (fun request o => o.beforeWatch request) request := by
  induction opts generalizing request with
  | nil => rfl
  | cons o opts ih =>
    simp only [runBeforeWatch, List.foldl_cons]
    exact ih (o.beforeWatch request)

theorem runBeforeWatch_length {H : Type} (opts : List WatchOption)
    (request : api.EventsRequest H) :
    (runBeforeWatch opts request).1.length = opts.length := by
  induction opts generalizing request with
  | nil => rfl
  | cons o opts ih =>
    simp only [runBeforeWatch, List.length_cons]
    rw [ih (o.beforeWatch request)]

theorem runBeforeWatch_getElem? {H : Type} (opts : List WatchOption)
    (request : api.EventsRequest H) (i : Nat) :
    (runBeforeWatch opts request).1[i]?
      = opts[i]?.map (fun o => WatchCall.beforeWatch o
          ((opts.take i).foldl (fun request o => o.beforeWatch request) request)) := by
  induction opts generalizing request i with
  | nil => simp [runBeforeWatch]
  | cons o opts ih =>
    cases i with
    | zero => simp [runBeforeWatch]
    | succ i =>
      simp only [runBeforeWatch, List.getElem?_cons_succ, List.take_succ_cons,
        List.foldl_cons]
      exact ih (o.beforeWatch request) i

theorem runBeforeWatch_calls {H : Type} (opts : List WatchOption)
    (request : api.EventsRequest H) :
    ∀ c ∈ (runBeforeWatch opts request).1, ∃ o r, c = WatchCall.beforeWatch o r := by
  induction opts generalizing request with
  | nil => intro c hc; simp [runBeforeWatch] at hc
  | cons o opts ih =>
    intro c hc
    simp only [runBeforeWatch, List.mem_cons] at hc
    rcases hc with rfl | hc
    · exact ⟨o, request, rfl⟩
    · exact ih (o.beforeWatch request) c hc

theorem pumpOf_append {H : Type} (a b : List (WatchCall H)) :
    pumpOf (a ++ b) = pumpOf a ++ pumpOf b := by
  induction a with
  | nil => rfl
  | cons x a ih => cases x <;> simp [pumpOf, ih]

theorem pumpOf_runBeforeWatch {H : Type} (opts : List WatchOption)
    (request : api.EventsRequest H) :
    pumpOf (runBeforeWatch opts request).1 = [] := by
  induction opts generalizing request with
  | nil => rfl
  | cons o opts ih =>
    simp only [runBeforeWatch, pumpOf]
    exact ih (o.beforeWatch request)

theorem count_closeOpenCh_hooks (opts : List WatchOption) (response : api.EventsResponse) :
    (opts.map (fun o => Effect.afterWatch o response)).count Effect.closeOpenCh = 0 := by
  induction opts with
  | nil => rfl
  | cons o opts ih => simpa [List.count_cons] using ih

theorem count_closeCh_hooks (opts : List WatchOption) (response : api.EventsResponse) :
    (opts.map (fun o => Effect.afterWatch o response)).count Effect.closeCh = 0 := by
  induction opts with
  | nil => rfl
  | cons o opts ih => simpa [List.count_cons] using ih

theorem count_closeOpenCh_switchEvent (response : api.EventsResponse) :
    (switchEvent response).count Effect.closeOpenCh = 0 := by
  obtain ⟨⟨tag, element⟩⟩ := response
  cases tag <;> simp [switchEvent, List.count_cons]

theorem count_closeCh_switchEvent (response : api.EventsResponse) :
    (switchEvent response).count Effect.closeCh = 0 := by
  obtain ⟨⟨tag, element⟩⟩ := response
  cases tag <;> simp [switchEvent, List.count_cons]

theorem count_closeOpenCh_pump_true (From : E → TypedError) (opts : List WatchOption)
    (stream : List (RecvResult E api.EventsResponse)) :
    (pump From opts true stream).count Effect.closeOpenCh = 0 := by
  induction stream with
  | nil => rfl
  | cons r stream ih =>
    cases r with
    | msg response =>
      rw [pump_msg]
      simp only [List.count_append, count_closeOpenCh_hooks, count_closeOpenCh_switchEvent, ih]
      rfl
    | EOF => simp [pump, deferred, List.count_cons]
    | error err =>
      simp only [pump]
      split <;> simp [deferred, List.count_cons]

/-- Whatever occurs once in a list and is its last entry has nothing after it. -/
theorem nothing_after_last {α : Type} [DecidableEq α] (x : α) (t a b : List α)
    (hcount : t.count x = 1) (hlast : t.getLast? = some x) (hsplit : t = a ++ x :: b) :
    b = [] := by
  subst hsplit
  by_contra hb
  have hb1 : (x :: b).getLast? = b.getLast? := by
    cases b with
    | nil => exact absurd rfl hb
    | cons y b => simp [List.getLast?_cons_cons]
  have hmem : x ∈ b := by
    have h1 : (a ++ x :: b).getLast? = b.getLast? := by
      rw [List.getLast?_append, hb1]
      cases hbl : b.getLast? with
      | none =>
        exact absurd (List.getLast?_eq_none_iff.mp hbl) hb
      | some y => simp
    rw [h1] at hlast
    exact List.mem_of_getLast?_eq_some hlast
  have hpos : 0 < b.count x := List.count_pos_iff.mpr hmem
  simp only [List.count_append, List.count_cons_self] at hcount
  omega

end Lemmas

/-! ## Add and Remove -/

/-- C1: soft-failure mapping of set Add and Remove, for every outcome of the underlying
RPC. Add returns `(true, nil)` when the RPC succeeds, `(false, nil)` when it fails and the
translated error is AlreadyExists (the failure of an Add on a value already present),
and `(false, err)` with `err` the translated error for every other failure; Remove does
the same with NotFound (the failure of a Remove on a value absent). -/
theorem Add_Remove_soft_failure {E R : Type} (From : E → TypedError) (value : String) :
    (∀ (client : api.AddRequest → Except E R) (response : R),
      client { Element := { Value := value } } = Except.ok response →
        Add From client value = (true, none)) ∧
    (∀ (client : api.AddRequest → Except E R) (err : E),
      client { Element := { Value := value } } = Except.error err →
        (From err).Kind = ErrorType.AlreadyExists →
          Add From client value = (false, none)) ∧
    (∀ (client : api.AddRequest → Except E R) (err : E),
      client { Element := { Value := value } } = Except.error err →
        (From err).Kind ≠ ErrorType.AlreadyExists →
          Add From client value = (false, some (From err))) ∧
    (∀ (client : api.RemoveRequest → Except E R) (response : R),
      client { Element := { Value := value } } = Except.ok response →
        Remove From client value = (true, none)) ∧
    (∀ (client : api.RemoveRequest → Except E R) (err : E),
      client { Element := { Value := value } } = Except.error err →
        (From err).Kind = ErrorType.NotFound →
          Remove From client value = (false, none)) ∧
    (∀ (client : api.RemoveRequest → Except E R) (err : E),
      client { Element := { Value := value } } = Except.error err →
        (From err).Kind ≠ ErrorType.NotFound →
          Remove From client value = (false, some (From err))) := by
  refine ⟨?_, ?_, ?_, ?_, ?_, ?_⟩
  · intro client response h
    simp [Add, h]
  · intro client err h hk
    simp [Add, h, IsAlreadyExists, hk]
  · intro client err h hk
    simp [Add, h, IsAlreadyExists, hk]
  · intro client response h
    simp [Remove, h]
  · intro client err h hk
    simp [Remove, h, IsNotFound, hk]
  · intro client err h hk
    simp [Remove, h, IsNotFound, hk]

/-! ## The pump of Watch -/

/-- C2: order preservation in the set Watch pump. For every sequence of stream messages
whose event-type tags are all known, followed by stream termination, the events pushed
onto the delivery channel are the mappings of the messages, one for each message and in
the order of the messages. -/
theorem pump_order_preserved {E : Type} (From : E → TypedError) (opts : List WatchOption)
    (msgs : List api.EventsResponse) (last : Option E)
    (hknown : ∀ m ∈ msgs, knownTag m.Event.Type_ = true) :
    (delivered (pump From opts false (streamOf msgs last))).map some = msgs.map eventOf ∧
    (delivered (pump From opts false (streamOf msgs last))).length = msgs.length := by
  have key : ∀ (opened : Bool) (msgs : List api.EventsResponse),
      (∀ m ∈ msgs, knownTag m.Event.Type_ = true) →
      (delivered (pump From opts opened (streamOf msgs last))).map some
        = msgs.map eventOf := by
    intro opened msgs
    induction msgs generalizing opened with
    | nil =>
      intro _
      cases last with
      | none => simp [streamOf, pump, delivered_deferred]
      | some err =>
        simp only [streamOf, List.map_nil, List.nil_append, pump]
        split <;> simp [delivered, delivered_deferred]
    | cons m msgs ih =>
      intro h
      have hm : knownTag m.Event.Type_ = true := h m (List.mem_cons_self _ _)
      have hrest : ∀ x ∈ msgs, knownTag x.Event.Type_ = true :=
        fun x hx => h x (List.mem_cons_of_mem _ hx)
      have hstep : streamOf (m :: msgs) last
          = RecvResult.msg m :: streamOf msgs last := rfl
      rw [hstep, pump_msg]
      simp only [delivered_append, delivered_gate, delivered_hooks, List.nil_append,
        List.map_append, List.map_cons]
      rw [ih true hrest, delivered_switchEvent]
      obtain ⟨⟨tag, element⟩⟩ := m
      cases tag <;> simp_all [eventOf, knownTag]
  have h := key false msgs hknown
  refine ⟨h, ?_⟩
  have hl := congrArg List.length h
  simpa using hl

/-- C2, at the scenario of the specification: replay of "a", replay of "b", then add of
"c", then the end of the stream, with the replay option, yields Replay("a"), Replay("b"),
Add("c"), 3 events in total. -/
theorem pump_order_preserved_witness :
    (∀ m ∈ ([{ Event := { Type_ := api.Event_Type.Event_REPLAY, Element := { Value := "a" } } },
             { Event := { Type_ := api.Event_Type.Event_REPLAY, Element := { Value := "b" } } },
             { Event := { Type_ := api.Event_Type.Event_ADD, Element := { Value := "c" } } }] :
            List api.EventsResponse), knownTag m.Event.Type_ = true) ∧
    ((delivered (pump (fun _ : Unit => ({ Kind := ErrorType.Other, Message := "" } : TypedError))
        [WithReplay] false
        (streamOf
          [{ Event := { Type_ := api.Event_Type.Event_REPLAY, Element := { Value := "a" } } },
           { Event := { Type_ := api.Event_Type.Event_REPLAY, Element := { Value := "b" } } },
           { Event := { Type_ := api.Event_Type.Event_ADD, Element := { Value := "c" } } }]
          none))).map some
      = [some { Type_ := "replay", Value := "a" }, some { Type_ := "replay", Value := "b" },
         some { Type_ := "add", Value := "c" }] ∧
     (delivered (pump (fun _ : Unit => ({ Kind := ErrorType.Other, Message := "" } : TypedError))
        [WithReplay] false
        (streamOf
          [{ Event := { Type_ := api.Event_Type.Event_REPLAY, Element := { Value := "a" } } },
           { Event := { Type_ := api.Event_Type.Event_REPLAY, Element := { Value := "b" } } },
           { Event := { Type_ := api.Event_Type.Event_ADD, Element := { Value := "c" } } }]
          none))).length = 3) :=
  ⟨by decide,
   pump_order_preserved (fun _ : Unit => ({ Kind := ErrorType.Other, Message := "" } : TypedError))
     [WithReplay] _ none (by decide)⟩

/-- C3: unknown-variant tolerance in the set Watch pump. A message whose wire event-type
tag is outside the known set produces no delivered event and does not terminate the
pump: after the hooks the pump goes on with the rest of the stream, and the events
delivered for a stream equal those delivered for the stream without that message. -/
theorem pump_unknown_tag_ignored {E : Type} (From : E → TypedError)
    (opts : List WatchOption) (opened : Bool) (tag : Int) (element : api.Element)
    (before after : List (RecvResult E api.EventsResponse)) :
    pump From opts opened
        (RecvResult.msg { Event := { Type_ := api.Event_Type.other tag, Element := element } }
          :: after)
      = (if !opened then [Effect.closeOpenCh] else [])
        ++ opts.map (fun o => Effect.afterWatch o
            { Event := { Type_ := api.Event_Type.other tag, Element := element } })
        ++ pump From opts true after ∧
    delivered (pump From opts opened
        (before ++ RecvResult.msg
          { Event := { Type_ := api.Event_Type.other tag, Element := element } } :: after))
      = delivered (pump From opts opened (before ++ after)) := by
  constructor
  · rw [pump_msg]
    simp [switchEvent]
  · induction before generalizing opened with
    | nil =>
      simp only [List.nil_append, pump_msg, delivered_append, delivered_gate,
        delivered_hooks, switchEvent, delivered]
      simpa using delivered_pump_opened From opts true opened after
    | cons r before ih =>
      cases r with
      | msg response =>
        simp only [List.cons_append, pump_msg, delivered_append]
        rw [ih true]
      | EOF => simp only [List.cons_append, pump]
      | error err => simp only [List.cons_append, pump]

theorem streamOf_cons {E M : Type} (m : M) (msgs : List M) (last : Option E) :
    streamOf (m :: msgs) last = RecvResult.msg m :: streamOf msgs last := rfl

theorem pump_no_message {E : Type} (From : E → TypedError) (opts : List WatchOption)
    (opened : Bool) (last : Option E) :
    pump From opts opened (streamOf [] last)
      = exitLog From last
        ++ deferred opened := by
  cases last with
  | none => simp [streamOf, pump, exitLog]
  | some err =>
    simp only [streamOf, List.map_nil, List.nil_append, pump, exitLog]
    split <;> simp

theorem delivered_pump_no_message {E : Type} (From : E → TypedError)
    (opts : List WatchOption) (opened : Bool) (last : Option E) :
    delivered (pump From opts opened (streamOf [] last)) = [] := by
  rw [pump_no_message, delivered_append, delivered_deferred]
  cases last with
  | none => rfl
  | some err =>
    simp only [exitLog]
    split <;> rfl

/-- C4: gate single-release in set Watch. For every sequence of stream messages followed
by a terminating receive (clean end, or any error), the pump closes `openCh` exactly
once. With a first message, whatever its tag, the close is the first effect of the pump,
before the hooks and the delivery, and nothing after it closes the gate again; with no
message, the close is that of the deferred function on the exit of the pump, right
before the close of the delivery channel. -/
theorem gate_closed_exactly_once {E : Type} (From : E → TypedError)
    (opts : List WatchOption) (msgs : List api.EventsResponse) (last : Option E)
    (m : api.EventsResponse) :
    (pump From opts false (streamOf msgs last)).count Effect.closeOpenCh = 1 ∧
    (pump From opts false (streamOf (m :: msgs) last)
        = Effect.closeOpenCh ::
          (opts.map (fun o => Effect.afterWatch o m) ++ switchEvent m
            ++ pump From opts true (streamOf msgs last)) ∧
      (opts.map (fun o => Effect.afterWatch o m) ++ switchEvent m
        ++ pump From opts true (streamOf msgs last)).count Effect.closeOpenCh = 0) ∧
    (pump From opts false (streamOf [] last)
        = exitLog From last
          ++ [Effect.closeOpenCh, Effect.closeCh]) := by
  have htail : ∀ (m : api.EventsResponse) (msgs : List api.EventsResponse),
      (opts.map (fun o => Effect.afterWatch o m) ++ switchEvent m
        ++ pump From opts true (streamOf msgs last)).count Effect.closeOpenCh = 0 := by
    intro m msgs
    simp only [List.count_append, count_closeOpenCh_hooks, count_closeOpenCh_switchEvent,
      count_closeOpenCh_pump_true]
  have hzero : pump From opts false (streamOf [] last)
      = exitLog From last
        ++ [Effect.closeOpenCh, Effect.closeCh] := by
    rw [pump_no_message]
    rfl
  refine ⟨?_, ⟨?_, htail m msgs⟩, hzero⟩
  · cases msgs with
    | nil =>
      rw [hzero]
      cases last with
      | none => simp [exitLog, List.count_cons]
      | some err =>
        simp only [exitLog]
        split <;> simp [List.count_cons]
    | cons m₀ msgs =>
      rw [streamOf_cons, pump_msg]
      have h := htail m₀ msgs
      simp only [List.count_append] at h ⊢
      simp only [Bool.not_false, if_true, List.count_cons_self, List.count_nil]
      omega
  · rw [streamOf_cons, pump_msg]
    simp

theorem count_closeCh_pump {E : Type} (From : E → TypedError) (opts : List WatchOption)
    (opened : Bool) (msgs : List api.EventsResponse) (last : Option E) :
    (pump From opts opened (streamOf msgs last)).count Effect.closeCh = 1 := by
  induction msgs generalizing opened with
  | nil =>
    rw [pump_no_message]
    cases last with
    | none => cases opened <;> simp [exitLog, deferred, List.count_cons]
    | some err =>
      simp only [exitLog]
      split <;> cases opened <;> simp [deferred, List.count_cons]
  | cons m msgs ih =>
    rw [streamOf_cons, pump_msg]
    simp only [List.count_append, count_closeCh_hooks, count_closeCh_switchEvent, ih true]
    cases opened <;> simp [List.count_cons]

theorem getLast?_pump {E : Type} (From : E → TypedError) (opts : List WatchOption)
    (opened : Bool) (msgs : List api.EventsResponse) (last : Option E) :
    (pump From opts opened (streamOf msgs last)).getLast? = some Effect.closeCh := by
  induction msgs generalizing opened with
  | nil =>
    rw [pump_no_message]
    cases last with
    | none => cases opened <;> simp [exitLog, deferred]
    | some err =>
      simp only [exitLog]
      split <;> cases opened <;> simp [deferred]
  | cons m msgs ih =>
    rw [streamOf_cons, pump_msg, List.getLast?_append, ih true]
    rfl

/-- C5: channel closure is terminal in the set Watch pump. On every exit path of the pump
(clean stream end, cancel or timeout classified error, any other error), after any
number of messages, the delivery channel is closed exactly once, the close is the last
effect of the pump, and nothing follows it: no further event is sent. -/
theorem channel_closed_once_at_exit {E : Type} (From : E → TypedError)
    (opts : List WatchOption) (msgs : List api.EventsResponse) (last : Option E) :
    (pump From opts false (streamOf msgs last)).count Effect.closeCh = 1 ∧
    (pump From opts false (streamOf msgs last)).getLast? = some Effect.closeCh ∧
    (∀ a b : List Effect,
      pump From opts false (streamOf msgs last) = a ++ Effect.closeCh :: b →
        b = [] ∧ delivered b = []) := by
  refine ⟨count_closeCh_pump From opts false msgs last,
    getLast?_pump From opts false msgs last, ?_⟩
  intro a b hsplit
  have hb : b = [] :=
    nothing_after_last Effect.closeCh _ a b (count_closeCh_pump From opts false msgs last)
      (getLast?_pump From opts false msgs last) hsplit
  subst hb
  exact ⟨rfl, rfl⟩

/-- C6: if the open-stream RPC of set Watch fails, Watch returns the translated error
right after the call: it runs the `beforeWatch` hooks, issues the RPC and returns; it
makes no gate, starts no goroutine, does not wait in the select, and nothing is sent on
the delivery channel. -/
theorem Watch_open_failure {E H : Type} [Inhabited H] (From : E → TypedError)
    (client : api.EventsRequest H → Except E (List (RecvResult E api.EventsResponse)))
    (opts : List WatchOption) (err : E)
    (hfail : client (opts.foldl (fun request o => o.beforeWatch request)
        { Replay := false, rest := default }) = Except.error err) :
    (∃ hooks : List (WatchCall H),
      (∀ c ∈ hooks, ∃ o r, c = WatchCall.beforeWatch o r) ∧
      Watch From client opts
        = hooks ++ [WatchCall.Events (opts.foldl (fun request o => o.beforeWatch request)
              { Replay := false, rest := default }),
            WatchCall.returnErr (From err)]) ∧
    WatchCall.makeOpenCh ∉ Watch From client opts ∧
    (∀ p, WatchCall.go p ∉ Watch From client opts) ∧
    WatchCall.selectOpenChOrDone ∉ Watch From client opts ∧
    pumpOf (Watch From client opts) = [] ∧
    delivered (pumpOf (Watch From client opts)) = [] := by
  have hW : Watch From client opts
      = (runBeforeWatch opts { Replay := false, rest := default }).1
        ++ [WatchCall.Events (opts.foldl (fun request o => o.beforeWatch request)
              { Replay := false, rest := default }),
            WatchCall.returnErr (From err)] := by
    simp only [Watch, runBeforeWatch_snd, hfail]
  have hcalls := runBeforeWatch_calls opts
    ({ Replay := false, rest := default } : api.EventsRequest H)
  have hpump : pumpOf (Watch From client opts) = [] := by
    rw [hW, pumpOf_append, pumpOf_runBeforeWatch]
    rfl
  refine ⟨⟨_, hcalls, hW⟩, ?_, ?_, ?_, hpump, ?_⟩
  · rw [hW]
    intro hmem
    rcases List.mem_append.mp hmem with h | h
    · obtain ⟨o, r, hc⟩ := hcalls _ h
      cases hc
    · simp at h
  · intro p
    rw [hW]
    intro hmem
    rcases List.mem_append.mp hmem with h | h
    · obtain ⟨o, r, hc⟩ := hcalls _ h
      cases hc
    · simp at h
  · rw [hW]
    intro hmem
    rcases List.mem_append.mp hmem with h | h
    · obtain ⟨o, r, hc⟩ := hcalls _ h
      cases hc
    · simp at h
  · rw [hpump]
    rfl

/-- C6, at a concrete call: Watch with the replay option, on a client whose Events RPC
fails. -/
theorem Watch_open_failure_witness :
    (fun _ : api.EventsRequest Unit =>
        (Except.error "unavailable" :
          Except String (List (RecvResult String api.EventsResponse))))
      ([WithReplay].foldl (fun request o => o.beforeWatch request)
        { Replay := false, rest := default }) = Except.error "unavailable" ∧
    ((∃ hooks : List (WatchCall Unit),
      (∀ c ∈ hooks, ∃ o r, c = WatchCall.beforeWatch o r) ∧
      Watch (fun m : String => ({ Kind := ErrorType.Other, Message := m } : TypedError))
          (fun _ => Except.error "unavailable") [WithReplay]
        = hooks ++ [WatchCall.Events ([WithReplay].foldl
              (fun request o => o.beforeWatch request)
              { Replay := false, rest := default }),
            WatchCall.returnErr { Kind := ErrorType.Other, Message := "unavailable" }]) ∧
    WatchCall.makeOpenCh ∉
      Watch (fun m : String => ({ Kind := ErrorType.Other, Message := m } : TypedError))
        (fun _ : api.EventsRequest Unit => Except.error "unavailable") [WithReplay] ∧
    (∀ p, WatchCall.go p ∉
      Watch (fun m : String => ({ Kind := ErrorType.Other, Message := m } : TypedError))
        (fun _ : api.EventsRequest Unit => Except.error "unavailable") [WithReplay]) ∧
    WatchCall.selectOpenChOrDone ∉
      Watch (fun m : String => ({ Kind := ErrorType.Other, Message := m } : TypedError))
        (fun _ : api.EventsRequest Unit => Except.error "unavailable") [WithReplay] ∧
    pumpOf (Watch (fun m : String => ({ Kind := ErrorType.Other, Message := m } : TypedError))
        (fun _ : api.EventsRequest Unit => Except.error "unavailable") [WithReplay]) = [] ∧
    delivered (pumpOf
      (Watch (fun m : String => ({ Kind := ErrorType.Other, Message := m } : TypedError))
        (fun _ : api.EventsRequest Unit => Except.error "unavailable") [WithReplay])) = []) :=
  ⟨rfl,
   Watch_open_failure
     (fun m : String => ({ Kind := ErrorType.Other, Message := m } : TypedError))
     (fun _ : api.EventsRequest Unit => Except.error "unavailable") [WithReplay]
     "unavailable" rfl⟩

/-! ## Cancellation before the first message -/

/-- C7 as stated fails: the context is canceled before any message arrives, `Recv`
returns the cancellation error, and the pump releases the gate on its exit; a select
evaluated after that close has both cases ready, and when it takes `openCh` the call
returns nil, not the Canceled error. -/
theorem Watch_cancel_may_return_nil :
    ¬ (∀ (k : Nat) (pickOpenCh : Bool),
        WatchReturn
          (pump (fun _ : Unit => ({ Kind := ErrorType.Canceled, Message := "" } : TypedError))
            [] false (streamOf [] (some ())))
          k (some CtxErr.Canceled) pickOpenCh = some (some CtxErr.Canceled)) := by
  intro h
  have h1 := h 1 true
  revert h1
  decide

/-- C7, amended: the context is canceled before the first stream message arrives, so
the stream has no message and a terminating receive, and `ctx.Err()` is Canceled when
the select completes. Watch returns the Canceled error or nil; it returns nil only
when the pump has already released the gate on its exit and the select takes `openCh`,
and it returns the Canceled error whenever the gate is still unreleased (as it is
before the first effect of the pump) or the select takes `ctx.Done()`. In every case
the pump sends no event and closes the delivery channel, once, as its last effect. -/
theorem Watch_cancel_before_first_message {E : Type} (From : E → TypedError)
    (opts : List WatchOption) (last : Option E) (k : Nat) (pickOpenCh : Bool) :
    (WatchReturn (pump From opts false (streamOf [] last)) k (some CtxErr.Canceled)
          pickOpenCh = some (some CtxErr.Canceled) ∨
      WatchReturn (pump From opts false (streamOf [] last)) k (some CtxErr.Canceled)
          pickOpenCh = some none) ∧
    (WatchReturn (pump From opts false (streamOf [] last)) k (some CtxErr.Canceled)
          pickOpenCh = some none ↔
      (Effect.closeOpenCh ∈ (pump From opts false (streamOf [] last)).take k ∧
        pickOpenCh = true)) ∧
    WatchReturn (pump From opts false (streamOf [] last)) 0 (some CtxErr.Canceled)
        pickOpenCh = some (some CtxErr.Canceled) ∧
    WatchReturn (pump From opts false (streamOf [] last)) k (some CtxErr.Canceled)
        false = some (some CtxErr.Canceled) ∧
    delivered (pump From opts false (streamOf [] last)) = [] ∧
    (pump From opts false (streamOf [] last)).count Effect.closeCh = 1 ∧
    (pump From opts false (streamOf [] last)).getLast? = some Effect.closeCh := by
  have hsel : ∀ (b p : Bool),
      (selectReturn b (some CtxErr.Canceled) p = some (some CtxErr.Canceled) ∨
        selectReturn b (some CtxErr.Canceled) p = some none) ∧
      (selectReturn b (some CtxErr.Canceled) p = some none ↔ (b = true ∧ p = true)) ∧
      selectReturn false (some CtxErr.Canceled) p = some (some CtxErr.Canceled) ∧
      selectReturn b (some CtxErr.Canceled) false = some (some CtxErr.Canceled) := by
    decide
  obtain ⟨h1, h2, h3, h4⟩ :=
    hsel (((pump From opts false (streamOf [] last)).take k).contains Effect.closeOpenCh)
      pickOpenCh
  refine ⟨h1, ?_, ?_, h4, ?_, count_closeCh_pump From opts false [] last,
    getLast?_pump From opts false [] last⟩
  · simp only [WatchReturn]
    rw [h2]
    simp
  · simpa [WatchReturn] using h3
  · exact delivered_pump_no_message From opts false last

/-! ## Elements -/

theorem elementsLoop_cons {E : Type} (From : E → TypedError) (m : api.ElementsResponse)
    (msgs : List api.ElementsResponse) (last : Option E) :
    elementsLoop From (streamOf (m :: msgs) last)
      = ElementsEffect.send m.Element.Value :: elementsLoop From (streamOf msgs last) := rfl

theorem elementsLoop_no_message {E : Type} (From : E → TypedError) (last : Option E) :
    elementsLoop From (streamOf [] last) = [ElementsEffect.closeCh] ∨
    ∃ err, elementsLoop From (streamOf [] last)
      = [ElementsEffect.logErrorf err, ElementsEffect.closeCh] := by
  cases last with
  | none => exact Or.inl rfl
  | some err =>
    simp only [streamOf, List.map_nil, List.nil_append, elementsLoop]
    split
    · exact Or.inl rfl
    · exact Or.inr ⟨_, rfl⟩

theorem forwarded_elementsLoop {E : Type} (From : E → TypedError)
    (msgs : List api.ElementsResponse) (last : Option E) :
    forwarded (elementsLoop From (streamOf msgs last))
      = msgs.map (fun m => m.Element.Value) := by
  induction msgs with
  | nil =>
    rcases elementsLoop_no_message From last with h | ⟨err, h⟩ <;> rw [h] <;> rfl
  | cons m msgs ih =>
    rw [elementsLoop_cons]
    simp only [forwarded, List.map_cons, ih]

theorem count_closeCh_elementsLoop {E : Type} (From : E → TypedError)
    (msgs : List api.ElementsResponse) (last : Option E) :
    (elementsLoop From (streamOf msgs last)).count ElementsEffect.closeCh = 1 := by
  induction msgs with
  | nil =>
    rcases elementsLoop_no_message From last with h | ⟨err, h⟩ <;> rw [h] <;>
      simp [List.count_cons]
  | cons m msgs ih =>
    rw [elementsLoop_cons, List.count_cons_of_ne (by simp), ih]

theorem getLast?_elementsLoop {E : Type} (From : E → TypedError)
    (msgs : List api.ElementsResponse) (last : Option E) :
    (elementsLoop From (streamOf msgs last)).getLast? = some ElementsEffect.closeCh := by
  induction msgs with
  | nil =>
    rcases elementsLoop_no_message From last with h | ⟨err, h⟩ <;> rw [h] <;> rfl
  | cons m msgs ih =>
    rw [elementsLoop_cons]
    have hne : elementsLoop From (streamOf msgs last) ≠ [] := by
      intro h
      rw [h] at ih
      simp at ih
    obtain ⟨x, t, ht⟩ := List.exists_cons_of_ne_nil hne
    rw [ht] at ih ⊢
    rw [List.getLast?_cons_cons, ih]

/-- C8: set Elements enumeration. When the open-stream RPC succeeds, Elements starts the
enumeration goroutine and returns nil; for every stream of element messages followed by
a terminating receive (clean end, or any error), the goroutine forwards exactly the raw
values of the messages onto the caller channel, in stream order, then closes the channel
once, as its last effect, and the error of the stream is at most logged: the call never
returns it. When the open-stream RPC fails, Elements returns the translated error, and
starts no goroutine: nothing is forwarded. -/
theorem Elements_enumeration {E : Type} (From : E → TypedError)
    (msgs : List api.ElementsResponse) (last : Option E) (err : E) :
    Elements From (fun _ => Except.ok (streamOf msgs last))
      = [ElementsCall.Elements {},
         ElementsCall.go (elementsLoop From (streamOf msgs last)),
         ElementsCall.returnNil] ∧
    forwarded (elementsLoop From (streamOf msgs last))
      = msgs.map (fun m => m.Element.Value) ∧
    (elementsLoop From (streamOf msgs last)).count ElementsEffect.closeCh = 1 ∧
    (elementsLoop From (streamOf msgs last)).getLast? = some ElementsEffect.closeCh ∧
    (∀ a b : List ElementsEffect,
      elementsLoop From (streamOf msgs last) = a ++ ElementsEffect.closeCh :: b → b = []) ∧
    Elements From (fun _ => Except.error err)
      = [ElementsCall.Elements {}, ElementsCall.returnErr (From err)] := by
  refine ⟨rfl, forwarded_elementsLoop From msgs last,
    count_closeCh_elementsLoop From msgs last, getLast?_elementsLoop From msgs last, ?_, rfl⟩
  intro a b hsplit
  exact nothing_after_last ElementsEffect.closeCh _ a b
    (count_closeCh_elementsLoop From msgs last) (getLast?_elementsLoop From msgs last) hsplit

/-! ## Watch options -/

theorem foldl_beforeWatch {H : Type} (opts : List WatchOption)
    (request : api.EventsRequest H) :
    (opts.foldl (fun request o => o.beforeWatch request) request).Replay
        = (request.Replay || !opts.isEmpty) ∧
    (opts.foldl (fun request o => o.beforeWatch request) request).rest = request.rest := by
  induction opts generalizing request with
  | nil => simp
  | cons o opts ih =>
    cases o
    simp only [List.foldl_cons, List.isEmpty_cons, Bool.not_false, Bool.or_true]
    obtain ⟨h1, h2⟩ := ih (WatchOption.replayOption.beforeWatch request)
    rw [h1, h2]
    simp [WatchOption.beforeWatch]

/-- C9: watch options of set Watch. For every list of watch options, Watch calls each
option's `beforeWatch` on the events request, in the order of the list, each on the
request as the previous calls left it, and then sends the request they leave; the pump
calls each option's `afterWatch` on every received message, in the order of the list,
after the gate and before the switch. `WithReplay` sets the `Replay` flag of the request
and changes nothing else, so the request sent has `Replay = true` exactly when
`WithReplay` is among the options, with every other field as in the empty request; its
`afterWatch` leaves the message unchanged. -/
theorem Watch_options {E H : Type} [Inhabited H] (From : E → TypedError)
    (client : api.EventsRequest H → Except E (List (RecvResult E api.EventsResponse)))
    (opts : List WatchOption) (opened : Bool) (response : api.EventsResponse)
    (stream : List (RecvResult E api.EventsResponse)) (request : api.EventsRequest H) :
    (∃ (hooks tail : List (WatchCall H)),
      Watch From client opts
        = hooks ++ WatchCall.Events (opts.foldl (fun request o => o.beforeWatch request)
            { Replay := false, rest := default }) :: tail ∧
      hooks.length = opts.length ∧
      ∀ i : Nat, hooks[i]? = opts[i]?.map (fun o => WatchCall.beforeWatch o
        ((opts.take i).foldl (fun request o => o.beforeWatch request)
          { Replay := false, rest := default }))) ∧
    (∃ hooks : List Effect,
      pump From opts opened (RecvResult.msg response :: stream)
        = (if !opened then [Effect.closeOpenCh] else []) ++ hooks
          ++ switchEvent response ++ pump From opts true stream ∧
      hooks.length = opts.length ∧
      ∀ i : Nat, hooks[i]? = opts[i]?.map (fun o => Effect.afterWatch o response)) ∧
    ((WithReplay.beforeWatch request).Replay = true ∧
      (WithReplay.beforeWatch request).rest = request.rest) ∧
    (((opts.foldl (fun request o => o.beforeWatch request)
          ({ Replay := false, rest := default } : api.EventsRequest H)).Replay = true
        ↔ WithReplay ∈ opts) ∧
      (opts.foldl (fun request o => o.beforeWatch request)
          ({ Replay := false, rest := default } : api.EventsRequest H)).rest = default) ∧
    WithReplay.afterWatch response = response := by
  refine ⟨?_, ?_, ⟨rfl, rfl⟩, ⟨?_, ?_⟩, rfl⟩
  · cases hc : client (opts.foldl (fun request o => o.beforeWatch request)
        { Replay := false, rest := default }) with
    | error err =>
      refine ⟨(runBeforeWatch opts { Replay := false, rest := default }).1,
        [WatchCall.returnErr (From err)], ?_, runBeforeWatch_length _ _,
        fun i => runBeforeWatch_getElem? _ _ i⟩
      simp only [Watch, runBeforeWatch_snd, hc]
    | ok s =>
      refine ⟨(runBeforeWatch opts { Replay := false, rest := default }).1,
        [WatchCall.makeOpenCh, WatchCall.go (pump From opts false s),
          WatchCall.selectOpenChOrDone], ?_, runBeforeWatch_length _ _,
        fun i => runBeforeWatch_getElem? _ _ i⟩
      simp only [Watch, runBeforeWatch_snd, hc]
  · refine ⟨opts.map (fun o => Effect.afterWatch o response), pump_msg _ _ _ _ _,
      List.length_map _ _, ?_⟩
    intro i
    simp
  · rw [(foldl_beforeWatch opts _).1]
    cases opts with
    | nil => simp
    | cons o opts =>
      cases o
      simp [WithReplay]
  · rw [(foldl_beforeWatch opts _).2]

end AtomixSet

namespace AtomixValue

open AtomixSet (TypedError)

/-- C10: IfMatch precondition of value Set. For every revision `r`, the `beforeSet` of
`IfMatch(ObjectMeta{Revision: r})` applied to an empty set request yields a request
whose first precondition carries metadata with revision number `r`; `Set` applies the
`beforeSet` of every option, in the order of the list, to the request that carries the
value, and passes the request they leave to the RPC, so that a `Set` with the option
`IfMatch` alone sends the value with that precondition. -/
theorem IfMatch_precondition {E : Type} (From : E → TypedError)
    (FromProto : api.ObjectMeta → ObjectMeta)
    (client : api.SetRequest → Except E api.SetResponse)
    (value : List UInt8) (opts : List SetOption) (r : Nat) :
    (((IfMatch { Revision := r }).beforeSet
        { Value := { ObjectMeta := { Revision := { Num := 0 } }, Value := [] },
          Preconditions := [] }).Preconditions[0]?).map
      (fun p => p.GetMetadata.Revision.Num) = some r ∧
    (Set From FromProto client value opts).request
      = opts.foldl (fun request o => o.beforeSet request)
          { Value := { ObjectMeta := { Revision := { Num := 0 } }, Value := value },
            Preconditions := [] } ∧
    ((Set From FromProto client value [IfMatch { Revision := r }]).request.Preconditions[0]?).map
      (fun p => p.GetMetadata.Revision.Num) = some r ∧
    (Set From FromProto client value [IfMatch { Revision := r }]).request.Value.Value
      = value := by
  have hreq : ∀ opts : List SetOption, (Set From FromProto client value opts).request
      = opts.foldl (fun request o => o.beforeSet request)
          { Value := { ObjectMeta := { Revision := { Num := 0 } }, Value := value },
            Preconditions := [] } := by
    intro opts
    simp only [Set]
    cases client (opts.foldl (fun request o => o.beforeSet request)
      { Value := { ObjectMeta := { Revision := { Num := 0 } }, Value := value },
        Preconditions := [] }) <;> rfl
  refine ⟨rfl, hreq opts, ?_, ?_⟩
  · rw [hreq]
    rfl
  · rw [hreq]
    rfl

end AtomixValue

namespace Atomix

/-- C11: what `GetSet` does. For every name, the primitive ID that `GetSet` builds and
connects with has `Name` equal to the given name, and `Type` equal to the string of
`counter.Type`, the constant its body names: it is the type tag of the set, "Set", only
if `counter.Type` is "Set". With the counter tag "Counter" and the name "foo" the ID is
{Type: "Counter", Name: "foo"}, whose type is not `set.Type`. -/
theorem GetSet_connects_with_counter_type {X S K C O : Type} (counterType : PrimitiveType)
    (connect : PrimitiveId → Except X K) (New : String → K → List O → Except X S)
    (WithSessionID : C → O) (clientID : C) (name : String) (opts : List O) :
    (GetSet counterType connect New WithSessionID clientID name opts).id.Name = name ∧
    (GetSet counterType connect New WithSessionID clientID name opts).id.Type_
      = counterType ∧
    ((GetSet counterType connect New WithSessionID clientID name opts).id.Type_
      = set_Type.String ↔ counterType = "Set") ∧
    (GetSet "Counter" connect New WithSessionID clientID "foo" opts).id
      = { Type_ := "Counter", Name := "foo" } ∧
    (GetSet "Counter" connect New WithSessionID clientID "foo" opts).id.Type_
      ≠ set_Type.String := by
  have hid : ∀ (t : PrimitiveType) (n : String),
      (GetSet t connect New WithSessionID clientID n opts).id = { Type_ := t, Name := n } := by
    intro t n
    simp only [GetSet, newPrimitiveID, PrimitiveType.String]
    cases connect { Type_ := t, Name := n } <;> rfl
  refine ⟨?_, ?_, ?_, hid _ _, ?_⟩
  · rw [hid]
  · rw [hid]
  · rw [hid]
    exact Iff.rfl
  · rw [hid]
    decide

end Atomix
